import Mathlib

/-!
Verification of the dinovectorizer match service against its specification.

The program (src/server.js) is an HTTP service whose `POST /match` handler
turns an uploaded base64 image into (a) a profile of at most three dominant
colors and (b) a 768-component embedding vector, and forwards both to an
external catalog matcher.  The definitions below are a shallow embedding of
that handler: the pure computations (color counting, crop arithmetic, base64
decoding, data-URI stripping, vector assembly) are translated directly, and
the external collaborators (the `sharp` image library, the loaded extractor
model, the Supabase RPC) are parameters of the handler, each returning
`Except` where the corresponding `await` can reject.
-/

namespace DinoVectorizer

/-- An RGB pixel as read from a `sharp(...).raw()` buffer: three channels of
one byte each, no alpha.  The handler reads the flat buffer three bytes at a
time (server.js:75-76). -/
structure Pixel where
  r : ℕ
  g : ℕ
  b : ℕ
deriving DecidableEq

/-- Channel values coming from a byte buffer are below 256. -/
def Pixel.bytes (p : Pixel) : Prop := p.r < 256 ∧ p.g < 256 ∧ p.b < 256

instance : DecidablePred Pixel.bytes := fun p =>
  inferInstanceAs (Decidable (p.r < 256 ∧ p.g < 256 ∧ p.b < 256))

/-- server.js:77 — a pixel is skipped by the counting loop when its channels
are all above 240 (near-white) or all below 15 (near-black). -/
def excluded (p : Pixel) : Prop :=
  (240 < p.r ∧ 240 < p.g ∧ 240 < p.b) ∨ (p.r < 15 ∧ p.g < 15 ∧ p.b < 15)

instance : DecidablePred excluded := fun p =>
  inferInstanceAs
    (Decidable ((240 < p.r ∧ 240 < p.g ∧ 240 < p.b) ∨ (p.r < 15 ∧ p.g < 15 ∧ p.b < 15)))

/-- The 24-bit color value `(r << 16) + (g << 8) + b` of server.js:78. -/
def hexVal (p : Pixel) : ℕ := p.r * 2 ^ 16 + p.g * 2 ^ 8 + p.b

/-- The six lowercase hex digits of a 24-bit value, most significant first.
server.js:78 computes `((1 << 24) + v).toString(16).slice(1)`: adding
`1 << 24` makes the number exactly seven hex digits long with leading digit
`1`, and `slice(1)` drops that lead digit, leaving the six base-16 digits of
`v` zero-padded to width six; this definition produces those six digits
directly. -/
def hex6 (v : ℕ) : List Char :=
  [Nat.digitChar (v / 16 ^ 5 % 16), Nat.digitChar (v / 16 ^ 4 % 16),
   Nat.digitChar (v / 16 ^ 3 % 16), Nat.digitChar (v / 16 ^ 2 % 16),
   Nat.digitChar (v / 16 % 16), Nat.digitChar (v % 16)]

/-- server.js:78 — the `"#xxxxxx"` string under which a pixel is counted. -/
def hexOf (p : Pixel) : String := String.mk ('#' :: hex6 (hexVal p))

/-- server.js:79 — `colorCounts[hex] = (colorCounts[hex] || 0) + 1` on a plain
object.  JavaScript objects enumerate string keys in insertion order, so the
table is an association list in which a fresh key is appended at the end and
an existing key is bumped in place. -/
def bump (counts : List (String × ℕ)) (key : String) : List (String × ℕ) :=
  if counts.any (fun e => e.1 = key) then
    counts.map (fun e => if e.1 = key then (e.1, e.2 + 1) else e)
  else
    counts ++ [(key, 1)]

/-- server.js:74-80 — the counting loop over the 50×50 downsampled pixels:
excluded pixels are skipped with `continue`, every other pixel bumps the count
of its hex key. -/
def countColors (ps : List Pixel) : List (String × ℕ) :=
  ps.foldl (fun acc p => if excluded p then acc else bump acc (hexOf p)) []

/-- server.js:81 — the sort comparator `(a, b) => colorCounts[b] - colorCounts[a]`:
`x` may precede `y` exactly when the comparator is ≤ 0 on `(x, y)`, i.e. when
`y`'s count is ≤ `x`'s count (descending frequency).  Stated on the counted
entries; the keys of `colorCounts` are distinct, so sorting the keys by their
looked-up counts is sorting the entries. -/
def countLE (x y : String × ℕ) : Bool := decide (y.2 ≤ x.2)

/-- server.js:81 — `Object.keys(colorCounts).sort(...)`: `Object.keys` yields
the keys in insertion order and `Array.prototype.sort` is stable, hence a
stable merge sort of the insertion-ordered entries. -/
def sortedCounts (ps : List Pixel) : List (String × ℕ) :=
  (countColors ps).mergeSort countLE

/-- server.js:81 — the final `.slice(0, 3)` over the sorted keys. -/
def topColors (ps : List Pixel) : List String :=
  ((sortedCounts ps).map Prod.fst).take 3

/-- JavaScript `Math.round`: the integer nearest to the argument, halves
toward +∞, i.e. `⌊q + 1/2⌋`.  ECMA-262 specifies `Math.round` on the exact
mathematical value of its double argument (it is not a double addition
followed by a floor), so applying this to the exact rational value of a
double is faithful. -/
def jsRound (q : ℚ) : ℤ := ⌊q + 1 / 2⌋

/-- Fuel-driven ⌊log₂ n⌋: `log2Aux fuel n` halves `n` until it reaches 1;
`fuel ≥ n` steps always suffice. -/
def log2Aux : ℕ → ℕ → ℕ
  | 0, _ => 0
  | fuel + 1, n => if n < 2 then 0 else 1 + log2Aux fuel (n / 2)

/-- ⌊log₂ n⌋ for n ≥ 1. -/
def log2Nat (n : ℕ) : ℕ := log2Aux n n

/-- Round a rational to the nearest integer, ties to the even integer — the
rounding of IEEE-754 round-to-nearest, ties-to-even. -/
def rne (x : ℚ) : ℤ :=
  if x - ⌊x⌋ < 1 / 2 then ⌊x⌋
  else if 1 / 2 < x - ⌊x⌋ then ⌊x⌋ + 1
  else if ⌊x⌋ % 2 = 0 then ⌊x⌋ else ⌊x⌋ + 1

/-- ⌊log₂ q⌋ for a positive rational `q`: for `q ≥ 1` the floor log of `⌊q⌋`;
for `q < 1` minus the ceiling log of `q⁻¹`. -/
def qlog2 (q : ℚ) : ℤ :=
  if 1 ≤ q then (log2Nat ⌊q⌋.toNat : ℤ)
  else -((log2Nat (⌈q⁻¹⌉.toNat - 1) : ℤ) + 1)

/-- `2 ^ e` over ℚ for an integer exponent, written with ℕ powers so that it
evaluates inside the kernel. -/
def pow2z (e : ℤ) : ℚ :=
  if 0 ≤ e then (2 : ℚ) ^ e.toNat else ((2 : ℚ) ^ (-e).toNat)⁻¹

/-- Binary64 rounding of a positive rational: scale by the power of two that
puts the value in `[2^52, 2^53)`, round to an integer significand (nearest,
ties to even), scale back. -/
def flPos (q : ℚ) : ℚ :=
  (rne (q * pow2z (52 - qlog2 q)) : ℚ) * pow2z (qlog2 q - 52)

/-- IEEE-754 binary64 (double) rounding, with unbounded exponent range: it
agrees with binary64 at every magnitude arising in the handler's crop
arithmetic (no overflow and no subnormals there).  JavaScript numbers are
binary64, so every numeric literal and every arithmetic result the program
manipulates is a value of this form. -/
def fl (q : ℚ) : ℚ :=
  if 0 < q then flPos q
  else if q < 0 then -flPos (-q)
  else 0

/-- The exact value of the JavaScript number holding a natural number —
sharp's `meta.width` / `meta.height` as the handler sees them. -/
def toD (n : ℕ) : ℚ := fl n

/-- server.js:86-91 — the `extract` rectangle of the center crop:
`(left, top, width, height)` =
`(Math.round(w*0.15), Math.round(h*0.15), Math.round(w*0.7), Math.round(h*0.7))`,
computed in binary64 as JavaScript does: the literals `0.15` and `0.7`
denote the binary64 values `fl 0.15` and `fl 0.7`, each product is a single
double multiplication (rounded by `fl`), and `Math.round` then takes the
nearest integer, halves toward +∞. -/
def cropRect (w h : ℕ) : ℤ × ℤ × ℤ × ℤ :=
  (jsRound (fl (toD w * fl 0.15)), jsRound (fl (toD h * fl 0.15)),
   jsRound (fl (toD w * fl 0.7)), jsRound (fl (toD h * fl 0.7)))

/-- Round half away from zero — the rounding the spec names for the crop
arithmetic (spec §4.2); stated separately from `jsRound` so the two can be
compared. -/
def roundHalfAwayFromZero (q : ℚ) : ℤ :=
  if 0 ≤ q then ⌊q + 1 / 2⌋ else ⌈q - 1 / 2⌉

/-- server.js:99 — `Array.from(output.data).slice(0, 768)`: the pooled model
output truncated to its first 768 components. -/
def assembleVector (pooled : List ℚ) : List ℚ := pooled.take 768

/-- The value of a base64 alphabet character; `none` for characters outside
the alphabet (including the `=` pad), which Node's forgiving decoder skips. -/
def base64Val (c : Char) : Option ℕ :=
  if 'A' ≤ c ∧ c ≤ 'Z' then some (c.toNat - 65)
  else if 'a' ≤ c ∧ c ≤ 'z' then some (c.toNat - 97 + 26)
  else if '0' ≤ c ∧ c ≤ '9' then some (c.toNat - 48 + 52)
  else if c = '+' then some 62
  else if c = '/' then some 63
  else none

/-- Reassemble bytes from 6-bit groups: each full group of four sextets gives
three bytes; a trailing group of two or three sextets gives one or two bytes;
a lone trailing sextet gives nothing. -/
def sextetsToBytes : List ℕ → List ℕ
  | a :: b :: c :: d :: rest =>
      (a * 4 + b / 16) :: (b % 16 * 16 + c / 4) :: (c % 4 * 64 + d) :: sextetsToBytes rest
  | [a, b] => [a * 4 + b / 16]
  | [a, b, c] => [a * 4 + b / 16, b % 16 * 16 + c / 4]
  | _ => []

/-- server.js:70 — `Buffer.from(s, 'base64')`: a total function that never
throws; characters outside the base64 alphabet are ignored. -/
def jsBase64Decode (s : String) : List ℕ :=
  sextetsToBytes (s.data.filterMap base64Val)

/-- The `\w` character class of the data-URI regular expression. -/
def isWordChar (c : Char) : Bool := c.isAlpha || c.isDigit || c = '_'

/-- Drop the literal first argument from the front of the second; `none` when
it does not start with it. -/
def dropLit : List Char → List Char → Option (List Char)
  | [], l => some l
  | _ :: _, [] => none
  | c :: cs, d :: ds => if c = d then dropLit cs ds else none

/-- server.js:70 — `image.replace(/^data:image\/\w+;base64,/, "")`: the match,
when it exists, is `data:image/`, then a maximal nonempty run of word
characters (the greedy `\w+` stops at the first non-word character, and `;` is
not a word character), then `;base64,`; the match is removed.  When the
pattern does not match, the string is unchanged. -/
def stripHeader (l : List Char) : List Char :=
  match dropLit "data:image/".data l with
  | none => l
  | some rest =>
    match rest.takeWhile isWordChar, rest.dropWhile isWordChar with
    | [], _ => l
    | _ :: _, rest2 =>
      match dropLit ";base64,".data rest2 with
      | none => l
      | some tail => tail

/-- server.js:70 — the data-URI header strip on strings. -/
def stripDataUri (s : String) : String := String.mk (stripHeader s.data)

/-- The EmbeddingEngine lifecycle of spec §4.3: `Unloaded → Loading → Ready`
on success, `Loading → Failed` when `pipeline(...)` rejects. -/
inductive EngineState
  | unloaded
  | loading
  | ready
  | failed
deriving DecidableEq

/-- server.js:25,47,52-54 — the handler can only observe the nullable global
`extractor`: it stays `null` until `pipeline(...)` resolves, and the `catch`
in `loadModel` only logs, so after a failed load it is still `null`. -/
def extractorOf : EngineState → Option Unit
  | .ready => some ()
  | _ => none

/-- server.js:46-55 — the state reached when the `pipeline(...)` call inside
`loadModel` resolves (`Ready`) or rejects (`Failed`). -/
def loadResult (r : Except String Unit) : EngineState :=
  match r with
  | .ok _ => .ready
  | .error _ => .failed

/-- The JSON responses the `/match` handler can produce (server.js:66-116),
abstracting a catalog match record as a natural number. -/
inductive Response
  | badRequest (msg : String)
  | notReady (msg : String)
  | ok (records : List ℕ) (colors : List String)
  | serverError (msg : String)
deriving DecidableEq

/-- The HTTP status each response is sent with (server.js:66,67,111,115). -/
def Response.status : Response → ℕ
  | .badRequest _ => 400
  | .notReady _ => 503
  | .ok _ _ => 200
  | .serverError _ => 500

/-- The awaited pipeline stages of the handler, in program order:
`sharp(buffer).resize(50,50).raw()` (server.js:73), the color-counting loop
(74-81), `sharp(buffer).metadata()` (84), the crop-and-resize (85-94), the
extractor inference (97-99), and the Supabase RPC (102-107). -/
inductive Step
  | resizeTiny
  | countStep
  | metaStep
  | cropResize
  | vectorize
  | rpcCall
deriving DecidableEq

/-- The external collaborators the handler awaits, as functions of what the
code passes them: `sharp` calls take the decoded buffer (and, for `extract`,
the crop rectangle; the 512×512 fit-inside resize of server.js:92 is part of
the same awaited chain), the extractor takes the processed frame with its
dimensions, the RPC takes the embedding, colors, threshold and count.  Each
`sharp` call and the RPC can reject; inference on a loaded extractor resolves
in the handler's control flow. -/
structure Ctx where
  resize50 : List ℕ → Except String (List Pixel)
  metadata : List ℕ → Except String (ℕ × ℕ)
  extract : List ℕ → ℤ × ℤ × ℤ × ℤ → Except String (List Pixel × ℕ × ℕ)
  model : List Pixel × ℕ × ℕ → List ℚ
  rpc : List ℚ → List String → ℚ → ℕ → Except String (List ℕ)

/-- server.js:63-117 — the `POST /match` handler.  `image` is `none` when the
request body lacks the field; JavaScript's falsiness test `!image` is also
true for the empty string.  Every thrown error is caught by the surrounding
`try` and becomes a 500 (server.js:113-116).  Alongside the response we
return the pipeline stages executed before the handler returned, in order. -/
def matchHandler (image : Option String) (extractor : Option Unit) (ctx : Ctx) :
    Response × List Step :=
  match image with
  | none => (.badRequest "No image", [])
  | some img =>
    if img = "" then (.badRequest "No image", [])
    else
      match extractor with
      | none => (.notReady "Model loading", [])
      | some _ =>
        let buffer := jsBase64Decode (stripDataUri img)
        match ctx.resize50 buffer with
        | .error e => (.serverError e, [.resizeTiny])
        | .ok tiny =>
          let colors := topColors tiny
          match ctx.metadata buffer with
          | .error e => (.serverError e, [.resizeTiny, .countStep, .metaStep])
          | .ok (w, h) =>
            match ctx.extract buffer (cropRect w h) with
            | .error e =>
                (.serverError e, [.resizeTiny, .countStep, .metaStep, .cropResize])
            | .ok frame =>
              let vector := assembleVector (ctx.model frame)
              match ctx.rpc vector colors 0.4 6 with
              | .error e =>
                  (.serverError e,
                   [.resizeTiny, .countStep, .metaStep, .cropResize, .vectorize, .rpcCall])
              | .ok ms =>
                  (.ok ms colors,
                   [.resizeTiny, .countStep, .metaStep, .cropResize, .vectorize, .rpcCall])

/-- A concrete environment in which every collaborator resolves trivially,
used to evaluate the handler on concrete requests. -/
def ctx0 : Ctx where
  resize50 := fun _ => .ok []
  metadata := fun _ => .ok (1, 1)
  extract := fun _ _ => .ok ([], 1, 1)
  model := fun _ => []
  rpc := fun _ _ _ _ => .ok []

/-- A concrete environment whose 50×50 downsample is a single near-white
pixel (all channels 250), with every other collaborator resolving. -/
def ctx7 : Ctx where
  resize50 := fun _ => .ok [Pixel.mk 250 250 250]
  metadata := fun _ => .ok (10, 10)
  extract := fun _ _ => .ok ([], 7, 7)
  model := fun _ => []
  rpc := fun _ _ _ _ => .ok []

/-- A concrete environment whose image decode stage rejects, as sharp does on
bytes that are not a decodable image. -/
def ctxBad : Ctx where
  resize50 := fun _ => .error "Input buffer contains unsupported image format"
  metadata := fun _ => .error "Input buffer contains unsupported image format"
  extract := fun _ _ => .error "Input buffer contains unsupported image format"
  model := fun _ => []
  rpc := fun _ _ _ _ => .ok []

/-! ## Theorems -/

/-- `log2Aux` brackets its input between consecutive powers of two. -/
theorem log2Aux_bounds : ∀ (fuel n : ℕ), 1 ≤ n → n ≤ fuel →
    2 ^ log2Aux fuel n ≤ n ∧ n < 2 ^ (log2Aux fuel n + 1) := by
  intro fuel
  induction fuel with
  | zero =>
    intro n h1 h2
    omega
  | succ fuel ih =>
    intro n h1 h2
    unfold log2Aux
    by_cases hn : n < 2
    · rw [if_pos hn]
      norm_num
      omega
    · rw [if_neg hn]
      have hrec := ih (n / 2) (by omega) (by omega)
      rw [pow_succ] at hrec
      have e1 : (2 : ℕ) ^ (1 + log2Aux fuel (n / 2)) = 2 ^ log2Aux fuel (n / 2) * 2 := by
        ring
      have e2 : (2 : ℕ) ^ (1 + log2Aux fuel (n / 2) + 1) = 2 ^ log2Aux fuel (n / 2) * 4 := by
        ring
      rw [e1, e2]
      omega

/-- `log2Nat` is the floor base-2 logarithm. -/
theorem log2Nat_bounds (n : ℕ) (h : 1 ≤ n) :
    2 ^ log2Nat n ≤ n ∧ n < 2 ^ (log2Nat n + 1) :=
  log2Aux_bounds n n h le_rfl

/-- `pow2z` is the integer power of two over ℚ. -/
theorem pow2z_eq (e : ℤ) : pow2z e = (2 : ℚ) ^ e := by
  unfold pow2z
  by_cases he : 0 ≤ e
  · rw [if_pos he, ← zpow_natCast, Int.toNat_of_nonneg he]
  · rw [if_neg he, ← zpow_natCast, Int.toNat_of_nonneg (by omega), ← zpow_neg, neg_neg]

/-- `qlog2` is the floor base-2 logarithm of a positive rational. -/
theorem qlog2_bounds (q : ℚ) (hq : 0 < q) :
    (2 : ℚ) ^ qlog2 q ≤ q ∧ q < 2 ^ (qlog2 q + 1) := by
  unfold qlog2
  by_cases h1 : 1 ≤ q
  · rw [if_pos h1]
    have hfl : 1 ≤ ⌊q⌋ := Int.le_floor.2 (by exact_mod_cast h1)
    have hnat : (⌊q⌋.toNat : ℤ) = ⌊q⌋ := Int.toNat_of_nonneg (by omega)
    obtain ⟨hlo, hhi⟩ := log2Nat_bounds ⌊q⌋.toNat (by omega)
    constructor
    · rw [zpow_natCast]
      calc ((2 : ℚ) ^ log2Nat ⌊q⌋.toNat) = ((2 ^ log2Nat ⌊q⌋.toNat : ℕ) : ℚ) := by
            push_cast
            ring
        _ ≤ ((⌊q⌋.toNat : ℕ) : ℚ) := by exact_mod_cast hlo
        _ ≤ q := by
            rw [show ((⌊q⌋.toNat : ℕ) : ℚ) = ((⌊q⌋.toNat : ℤ) : ℚ) by push_cast; ring, hnat]
            exact Int.floor_le q
    · have h2 : ⌊q⌋ < 2 ^ (log2Nat ⌊q⌋.toNat + 1) := by
        rw [← hnat]
        exact_mod_cast hhi
      have h3 : q < ⌊q⌋ + 1 := Int.lt_floor_add_one q
      have h4 : (⌊q⌋ : ℚ) + 1 ≤ ((2 : ℚ) ^ (log2Nat ⌊q⌋.toNat + 1 : ℕ)) := by
        have h5 : ⌊q⌋ + 1 ≤ (2 : ℤ) ^ (log2Nat ⌊q⌋.toNat + 1) := by
          omega
        calc (⌊q⌋ : ℚ) + 1 = ((⌊q⌋ + 1 : ℤ) : ℚ) := by push_cast; ring
          _ ≤ (((2 : ℤ) ^ (log2Nat ⌊q⌋.toNat + 1) : ℤ) : ℚ) := by exact_mod_cast h5
          _ = (2 : ℚ) ^ (log2Nat ⌊q⌋.toNat + 1 : ℕ) := by push_cast; ring
      have h5 : ((log2Nat ⌊q⌋.toNat : ℤ) + 1) = ((log2Nat ⌊q⌋.toNat + 1 : ℕ) : ℤ) := by
        push_cast
        ring
      rw [h5, zpow_natCast]
      linarith
  · rw [if_neg h1]
    push_neg at h1
    have hr1 : 1 < q⁻¹ := one_lt_inv_iff₀.2 ⟨hq, h1⟩
    have hceil2 : 2 ≤ ⌈q⁻¹⌉ := by
      have h2 : 1 < ⌈q⁻¹⌉ := by
        have := Int.lt_ceil.2 (show ((1 : ℤ) : ℚ) < q⁻¹ by exact_mod_cast hr1)
        omega
      omega
    have hm : (⌈q⁻¹⌉.toNat : ℤ) = ⌈q⁻¹⌉ := Int.toNat_of_nonneg (by omega)
    have hm1 : 1 ≤ ⌈q⁻¹⌉.toNat - 1 := by omega
    obtain ⟨hlo, hhi⟩ := log2Nat_bounds (⌈q⁻¹⌉.toNat - 1) hm1
    set k := log2Nat (⌈q⁻¹⌉.toNat - 1) with hk
    have hub : q⁻¹ ≤ (2 : ℚ) ^ (k + 1 : ℕ) := by
      have h6 : ⌈q⁻¹⌉ ≤ (2 : ℤ) ^ (k + 1) := by
        have h7 := hhi
        zify [show 1 ≤ ⌈q⁻¹⌉.toNat by omega] at h7
        omega
      calc q⁻¹ ≤ (⌈q⁻¹⌉ : ℚ) := Int.le_ceil _
        _ ≤ (((2 : ℤ) ^ (k + 1) : ℤ) : ℚ) := by exact_mod_cast h6
        _ = (2 : ℚ) ^ (k + 1 : ℕ) := by push_cast; ring
    have hlb : (2 : ℚ) ^ (k : ℕ) < q⁻¹ := by
      have h8 : (⌈q⁻¹⌉ : ℚ) - 1 < q⁻¹ := by
        have := Int.ceil_lt_add_one q⁻¹
        linarith
      have h9 : ((2 : ℚ) ^ (k : ℕ)) ≤ (⌈q⁻¹⌉ : ℚ) - 1 := by
        have h10 := hlo
        zify [show 1 ≤ ⌈q⁻¹⌉.toNat by omega] at h10
        have h11 : ((2 : ℤ) ^ k : ℤ) ≤ ⌈q⁻¹⌉ - 1 := by omega
        calc ((2 : ℚ) ^ (k : ℕ)) = (((2 : ℤ) ^ k : ℤ) : ℚ) := by push_cast; ring
          _ ≤ ((⌈q⁻¹⌉ - 1 : ℤ) : ℚ) := by exact_mod_cast h11
          _ = (⌈q⁻¹⌉ : ℚ) - 1 := by push_cast; ring
      linarith
    have hq3 : (0 : ℚ) < (2 : ℚ) ^ (k : ℕ) := by positivity
    constructor
    · rw [show (-(((k : ℤ)) + 1)) = -((k + 1 : ℕ) : ℤ) by push_cast; ring, zpow_neg,
        zpow_natCast]
      have h12 : ((2 : ℚ) ^ (k + 1 : ℕ))⁻¹ ≤ (q⁻¹)⁻¹ := inv_anti₀ (inv_pos.2 hq) hub
      rwa [inv_inv] at h12
    · rw [show (-(((k : ℤ)) + 1) + 1) = -((k : ℕ) : ℤ) by ring, zpow_neg,
        zpow_natCast]
      have h13 : (q⁻¹)⁻¹ < ((2 : ℚ) ^ (k : ℕ))⁻¹ := inv_strictAnti₀ hq3 hlb
      rwa [inv_inv] at h13

/-- The bracketing between consecutive powers of two determines `qlog2`. -/
theorem qlog2_unique (q : ℚ) (e : ℤ) (hq : 0 < q)
    (hlo : (2 : ℚ) ^ e ≤ q) (hhi : q < 2 ^ (e + 1)) : qlog2 q = e := by
  obtain ⟨hlo2, hhi2⟩ := qlog2_bounds q hq
  by_contra hne
  rcases lt_or_gt_of_ne hne with h | h
  · have : (2 : ℚ) ^ (qlog2 q + 1) ≤ 2 ^ e := zpow_le_zpow_right₀ one_le_two (by omega)
    linarith
  · have : (2 : ℚ) ^ (e + 1) ≤ 2 ^ qlog2 q := zpow_le_zpow_right₀ one_le_two (by omega)
    linarith

/-- `rne` is at distance at most 1/2 from its argument. -/
theorem rne_err (x : ℚ) : |(rne x : ℚ) - x| ≤ 1 / 2 := by
  have h0 : (⌊x⌋ : ℚ) ≤ x := Int.floor_le x
  have h1 : x < ⌊x⌋ + 1 := Int.lt_floor_add_one x
  unfold rne
  split_ifs with ha hb hc
  · rw [abs_le]
    constructor <;> linarith
  · rw [abs_le]
    constructor <;> push_cast <;> linarith
  · rw [abs_le]
    constructor <;> linarith
  · rw [abs_le]
    constructor <;> push_cast <;> linarith

/-- A certificate evaluating `rne` below a half-integer boundary. -/
theorem rne_eval_lo (x : ℚ) (m : ℤ) (h1 : (m : ℚ) ≤ x) (h2 : x < m + 1 / 2) :
    rne x = m := by
  have hf : ⌊x⌋ = m := Int.floor_eq_iff.2 ⟨h1, by linarith⟩
  rw [rne, hf, if_pos (by linarith)]

/-- A certificate evaluating `rne` above a half-integer boundary. -/
theorem rne_eval_hi (x : ℚ) (m : ℤ) (h1 : (m : ℚ) + 1 / 2 < x) (h2 : x < m + 1) :
    rne x = m + 1 := by
  have hf : ⌊x⌋ = m := Int.floor_eq_iff.2 ⟨by linarith, by linarith⟩
  rw [rne, hf, if_neg (by linarith), if_pos (by linarith)]

/-- A certificate evaluating `fl`: exhibiting the exponent bracket and the
rounded significand determines the rounded value. -/
theorem fl_eval (q r : ℚ) (e m : ℤ) (hq : 0 < q)
    (hlo : pow2z e ≤ q) (hhi : q < pow2z (e + 1))
    (hm : rne (q * pow2z (52 - e)) = m)
    (hr : (m : ℚ) * pow2z (e - 52) = r) : fl q = r := by
  have he : qlog2 q = e := by
    apply qlog2_unique q e hq
    · rwa [← pow2z_eq]
    · rwa [← pow2z_eq]
  rw [fl, if_pos hq, flPos, he, hm, hr]

/-- Binary64 rounding has relative error at most 2⁻⁵³ on positive inputs. -/
theorem fl_err (q : ℚ) (hq : 0 < q) : |fl q - q| ≤ q * (2 : ℚ) ^ (-53 : ℤ) := by
  rw [fl, if_pos hq]
  obtain ⟨hlo, hhi⟩ := qlog2_bounds q hq
  set e := qlog2 q with he
  have cancel : (2 : ℚ) ^ ((52 : ℤ) - e) * (2 : ℚ) ^ (e - 52) = 1 := by
    rw [← zpow_add₀ two_ne_zero]
    norm_num
  have key : flPos q - q =
      ((rne (q * (2 : ℚ) ^ ((52 : ℤ) - e)) : ℚ) - q * (2 : ℚ) ^ ((52 : ℤ) - e)) *
        (2 : ℚ) ^ (e - 52) := by
    rw [flPos, ← he, pow2z_eq, pow2z_eq, sub_mul, mul_assoc, cancel, mul_one]
  have habs : |(2 : ℚ) ^ (e - 52)| = (2 : ℚ) ^ (e - 52) :=
    abs_of_pos (zpow_pos two_pos (e - 52))
  rw [key, abs_mul, habs]
  have h53 : (1 / 2 : ℚ) * (2 : ℚ) ^ (e - 52) = (2 : ℚ) ^ e * (2 : ℚ) ^ (-53 : ℤ) := by
    rw [show (1 / 2 : ℚ) = (2 : ℚ) ^ (-1 : ℤ) by norm_num, ← zpow_add₀ two_ne_zero,
      ← zpow_add₀ two_ne_zero]
    congr 1
    ring
  calc |(rne (q * (2 : ℚ) ^ ((52 : ℤ) - e)) : ℚ) - q * (2 : ℚ) ^ ((52 : ℤ) - e)| *
        (2 : ℚ) ^ (e - 52)
      ≤ (1 / 2) * (2 : ℚ) ^ (e - 52) :=
        mul_le_mul_of_nonneg_right (rne_err _) (le_of_lt (zpow_pos two_pos _))
    _ = (2 : ℚ) ^ e * (2 : ℚ) ^ (-53 : ℤ) := h53
    _ ≤ q * (2 : ℚ) ^ (-53 : ℤ) :=
        mul_le_mul_of_nonneg_right hlo (le_of_lt (zpow_pos two_pos _))

/-- Arguments within 1/2 of each other round (by `Math.round`) to integers at
most 1 apart. -/
theorem jsRound_close (a b : ℚ) (h : |a - b| < 1 / 2) : |jsRound a - jsRound b| ≤ 1 := by
  rw [abs_lt] at h
  have f1 : ⌊a + 1 / 2⌋ ≤ ⌊b + 1 / 2⌋ + 1 := by
    calc ⌊a + 1 / 2⌋ ≤ ⌊(b + 1 / 2) + 1⌋ := Int.floor_le_floor (by linarith)
      _ = ⌊b + 1 / 2⌋ + 1 := by rw [Int.floor_add_one]
  have f2 : ⌊b + 1 / 2⌋ ≤ ⌊a + 1 / 2⌋ + 1 := by
    calc ⌊b + 1 / 2⌋ ≤ ⌊(a + 1 / 2) + 1⌋ := Int.floor_le_floor (by linarith)
      _ = ⌊a + 1 / 2⌋ + 1 := by rw [Int.floor_add_one]
  rw [jsRound, jsRound, abs_le]
  omega

/-- The double computation of one crop component stays within 1/2 of the
exact product, for any dimension up to 2⁴⁸ and coefficient in (0, 1]. -/
theorem crop_component_close (c : ℚ) (hc0 : 0 < c) (hc1 : c ≤ 1) (w : ℕ)
    (hw : 0 < w) (hwb : (w : ℚ) ≤ 2 ^ 48) :
    |fl (toD w * fl c) - (w : ℚ) * c| < 1 / 2 := by
  simp only [toD]
  have hk : (2 : ℚ) ^ (-53 : ℤ) = 1 / 9007199254740992 := by norm_num
  have hw1 : (1 : ℚ) ≤ (w : ℚ) := by exact_mod_cast hw
  have hwpos : (0 : ℚ) < (w : ℚ) := by linarith
  have hA0 := fl_err (w : ℚ) hwpos
  rw [hk] at hA0
  have hB0 := fl_err c hc0
  rw [hk] at hB0
  have hA : |fl (w : ℚ) - (w : ℚ)| ≤ 1 / 32 := by
    calc |fl (w : ℚ) - (w : ℚ)| ≤ (w : ℚ) * (1 / 9007199254740992) := hA0
      _ ≤ 2 ^ 48 * (1 / 9007199254740992) := by linarith
      _ ≤ 1 / 32 := by norm_num
  have hB : |fl c - c| ≤ 1 / 9007199254740992 := by
    calc |fl c - c| ≤ c * (1 / 9007199254740992) := hB0
      _ ≤ 1 * (1 / 9007199254740992) := by linarith
      _ = 1 / 9007199254740992 := by norm_num
  have hApos : 0 < fl (w : ℚ) := by
    have := (abs_le.1 hA).1
    linarith
  have hBpos : 0 < fl c := by
    have := (abs_le.1 hB0).1
    linarith
  have hAabs : |fl (w : ℚ)| ≤ 2 ^ 48 + 1 / 32 := by
    have hid : fl (w : ℚ) = (w : ℚ) + (fl (w : ℚ) - (w : ℚ)) := by ring
    calc |fl (w : ℚ)| = |(w : ℚ) + (fl (w : ℚ) - (w : ℚ))| := by rw [← hid]
      _ ≤ |(w : ℚ)| + |fl (w : ℚ) - (w : ℚ)| := abs_add _ _
      _ ≤ 2 ^ 48 + 1 / 32 := by
          rw [abs_of_pos hwpos]
          linarith
  have hcabs : |c| ≤ 1 := by
    rw [abs_of_pos hc0]
    exact hc1
  have hP1 : |fl (w : ℚ) * fl c - (w : ℚ) * c| ≤
      (2 ^ 48 + 1 / 32) * (1 / 9007199254740992) + 1 * (1 / 32) := by
    have hid : fl (w : ℚ) * fl c - (w : ℚ) * c =
        fl (w : ℚ) * (fl c - c) + c * (fl (w : ℚ) - (w : ℚ)) := by ring
    rw [hid]
    calc |fl (w : ℚ) * (fl c - c) + c * (fl (w : ℚ) - (w : ℚ))|
        ≤ |fl (w : ℚ) * (fl c - c)| + |c * (fl (w : ℚ) - (w : ℚ))| := abs_add _ _
      _ = |fl (w : ℚ)| * |fl c - c| + |c| * |fl (w : ℚ) - (w : ℚ)| := by
          rw [abs_mul, abs_mul]
      _ ≤ (2 ^ 48 + 1 / 32) * (1 / 9007199254740992) + 1 * (1 / 32) := by
          gcongr
  have hPerr : |fl (w : ℚ) * fl c - (w : ℚ) * c| ≤ 1 / 8 :=
    le_trans hP1 (by norm_num)
  have hwcub : (w : ℚ) * c ≤ 2 ^ 48 :=
    le_trans (mul_le_of_le_one_right (le_of_lt hwpos) hc1) hwb
  have hPub : fl (w : ℚ) * fl c ≤ 2 ^ 48 + 1 / 8 := by
    have := (abs_le.1 hPerr).2
    linarith
  have hPpos : 0 < fl (w : ℚ) * fl c := mul_pos hApos hBpos
  have hC0 := fl_err (fl (w : ℚ) * fl c) hPpos
  rw [hk] at hC0
  have hC : |fl (fl (w : ℚ) * fl c) - fl (w : ℚ) * fl c| ≤
      (2 ^ 48 + 1 / 8) * (1 / 9007199254740992) := by
    calc |fl (fl (w : ℚ) * fl c) - fl (w : ℚ) * fl c|
        ≤ (fl (w : ℚ) * fl c) * (1 / 9007199254740992) := hC0
      _ ≤ (2 ^ 48 + 1 / 8) * (1 / 9007199254740992) := by linarith
  have hid2 : fl (fl (w : ℚ) * fl c) - (w : ℚ) * c =
      (fl (fl (w : ℚ) * fl c) - fl (w : ℚ) * fl c) + (fl (w : ℚ) * fl c - (w : ℚ) * c) := by
    ring
  calc |fl (fl (w : ℚ) * fl c) - (w : ℚ) * c|
      = |(fl (fl (w : ℚ) * fl c) - fl (w : ℚ) * fl c) +
          (fl (w : ℚ) * fl c - (w : ℚ) * c)| := by rw [← hid2]
    _ ≤ |fl (fl (w : ℚ) * fl c) - fl (w : ℚ) * fl c| +
          |fl (w : ℚ) * fl c - (w : ℚ) * c| := abs_add _ _
    _ ≤ (2 ^ 48 + 1 / 8) * (1 / 9007199254740992) + 1 / 8 := add_le_add hC hPerr
    _ < 1 / 2 := by norm_num

/-- On nonnegative arguments `Math.round` and round-half-away-from-zero
agree. -/
theorem rhafz_eq_jsRound (x : ℚ) (hx : 0 ≤ x) :
    roundHalfAwayFromZero x = jsRound x := by
  rw [roundHalfAwayFromZero, if_pos hx]
  rfl

/-- The binary64 value of the literal `0.15` (server.js:87-88). -/
theorem fl_d15 : fl 0.15 = 5404319552844595 / 2 ^ 55 := by
  refine fl_eval 0.15 _ (-3) 5404319552844595 (by norm_num) ?_ ?_ ?_ (by norm_num [pow2z_eq])
  · norm_num [pow2z_eq]
  · norm_num [pow2z_eq]
  · apply rne_eval_lo <;> norm_num [pow2z_eq]

/-- The binary64 value of the literal `0.7` (server.js:89-90). -/
theorem fl_d7 : fl 0.7 = 6305039478318694 / 2 ^ 53 := by
  refine fl_eval 0.7 _ (-1) 6305039478318694 (by norm_num) ?_ ?_ ?_ (by norm_num [pow2z_eq])
  · norm_num [pow2z_eq]
  · norm_num [pow2z_eq]
  · apply rne_eval_lo <;> norm_num [pow2z_eq]

/-- Small integers are exact doubles. -/
theorem toD_45 : toD 45 = 45 := by
  refine fl_eval 45 45 5 (45 * 2 ^ 47) (by norm_num) ?_ ?_ ?_ (by norm_num [pow2z_eq])
  · norm_num [pow2z_eq]
  · norm_num [pow2z_eq]
  · apply rne_eval_lo <;> norm_num [pow2z_eq]

/-- 1000 is an exact double. -/
theorem toD_1000 : toD 1000 = 1000 := by
  refine fl_eval 1000 1000 9 (1000 * 2 ^ 43) (by norm_num) ?_ ?_ ?_ (by norm_num [pow2z_eq])
  · norm_num [pow2z_eq]
  · norm_num [pow2z_eq]
  · apply rne_eval_lo <;> norm_num [pow2z_eq]

/-- 800 is an exact double. -/
theorem toD_800 : toD 800 = 800 := by
  refine fl_eval 800 800 9 (800 * 2 ^ 43) (by norm_num) ?_ ?_ ?_ (by norm_num [pow2z_eq])
  · norm_num [pow2z_eq]
  · norm_num [pow2z_eq]
  · apply rne_eval_lo <;> norm_num [pow2z_eq]

/-- In binary64, `1000 * 0.15` rounds up to exactly 150. -/
theorem p15_1000 : fl ((1000 : ℚ) * (5404319552844595 / 2 ^ 55)) = 150 := by
  refine fl_eval _ _ 7 5277655813324800 (by norm_num) (by norm_num [pow2z_eq])
    (by norm_num [pow2z_eq]) ?_ (by norm_num [pow2z_eq])
  exact (rne_eval_hi _ 5277655813324799 (by norm_num [pow2z_eq])
    (by norm_num [pow2z_eq])).trans (by norm_num)

/-- In binary64, `800 * 0.15` rounds up to exactly 120. -/
theorem p15_800 : fl ((800 : ℚ) * (5404319552844595 / 2 ^ 55)) = 120 := by
  refine fl_eval _ _ 6 8444249301319680 (by norm_num) (by norm_num [pow2z_eq])
    (by norm_num [pow2z_eq]) ?_ (by norm_num [pow2z_eq])
  exact (rne_eval_hi _ 8444249301319679 (by norm_num [pow2z_eq])
    (by norm_num [pow2z_eq])).trans (by norm_num)

/-- In binary64, `1000 * 0.7` rounds up to exactly 700. -/
theorem p7_1000 : fl ((1000 : ℚ) * (6305039478318694 / 2 ^ 53)) = 700 := by
  refine fl_eval _ _ 9 6157265115545600 (by norm_num) (by norm_num [pow2z_eq])
    (by norm_num [pow2z_eq]) ?_ (by norm_num [pow2z_eq])
  exact (rne_eval_hi _ 6157265115545599 (by norm_num [pow2z_eq])
    (by norm_num [pow2z_eq])).trans (by norm_num)

/-- In binary64, `800 * 0.7` rounds up to exactly 560. -/
theorem p7_800 : fl ((800 : ℚ) * (6305039478318694 / 2 ^ 53)) = 560 := by
  refine fl_eval _ _ 9 4925812092436480 (by norm_num) (by norm_num [pow2z_eq])
    (by norm_num [pow2z_eq]) ?_ (by norm_num [pow2z_eq])
  exact (rne_eval_hi _ 4925812092436479 (by norm_num [pow2z_eq])
    (by norm_num [pow2z_eq])).trans (by norm_num)

/-- In binary64, `45 * 0.15` rounds up to exactly 6.75. -/
theorem p15_45 : fl ((45 : ℚ) * (5404319552844595 / 2 ^ 55)) = 27 / 4 := by
  refine fl_eval _ _ 2 7599824371187712 (by norm_num) (by norm_num [pow2z_eq])
    (by norm_num [pow2z_eq]) ?_ (by norm_num [pow2z_eq])
  exact (rne_eval_hi _ 7599824371187711 (by norm_num [pow2z_eq])
    (by norm_num [pow2z_eq])).trans (by norm_num)

/-- The crop rectangle of the spec's 1000×800 example. -/
theorem cropRect_1000_800 : cropRect 1000 800 = (150, 120, 700, 560) := by
  rw [cropRect, toD_1000, toD_800, fl_d15, fl_d7, p15_1000, p15_800, p7_1000, p7_800]
  norm_num [jsRound, Prod.ext_iff]

/-- The crop rectangle at 45×45: the binary64 product `45 * 0.7` is
`31.499999999999996447…` (one sub-half-ulp below 31.5), so `Math.round`
gives 31. -/
theorem cropRect_45 : cropRect 45 45 = (7, 7, 31, 31) := by
  rw [cropRect, toD_45, fl_d15, fl_d7, p15_45]
  rw [fl_eval ((45 : ℚ) * (6305039478318694 / 2 ^ 53)) (8866461766385663 / 2 ^ 48) 4
    8866461766385663 (by norm_num) (by norm_num [pow2z_eq]) (by norm_num [pow2z_eq])
    (rne_eval_lo _ _ (by norm_num [pow2z_eq]) (by norm_num [pow2z_eq]))
    (by norm_num [pow2z_eq])]
  norm_num [jsRound, Prod.ext_iff]

/-- C1 counterexample: at W = 45 the crop width computed by the program is
`Math.round` of the binary64 product `45 * 0.7 = 31.499999999999996…`, namely
31 — not the round-half-away-from-zero value 32 of the exact product 31.5. -/
theorem crop_width_45_diverges :
    (cropRect 45 45).2.2.1 ≠ roundHalfAwayFromZero ((45 : ℚ) * 0.7) ∧
    (cropRect 45 45).2.2.1 = 31 ∧ roundHalfAwayFromZero ((45 : ℚ) * 0.7) = 32 := by
  have h1 : (cropRect 45 45).2.2.1 = 31 := by rw [cropRect_45]
  have h2 : roundHalfAwayFromZero ((45 : ℚ) * 0.7) = 32 := by
    rw [roundHalfAwayFromZero, if_pos (by norm_num)]
    norm_num
  refine ⟨?_, h1, h2⟩
  rw [h1, h2]
  omega

/-- C1 amended: for every decoded image with 0 < W, H ≤ 2⁴⁸, the crop
rectangle is `Math.round` of the binary64 products W·0.15, H·0.15, W·0.7,
H·0.7; each component is within 1 of the exact round-half-away-from-zero
value (it can fall below it, as at W = 45), and for W = 1000, H = 800 the
rectangle is exactly left 150, top 120, width 700, height 560. -/
theorem crop_rect_double_semantics (w h : ℕ) (hw : 0 < w) (hh : 0 < h)
    (hwb : (w : ℚ) ≤ 2 ^ 48) (hhb : (h : ℚ) ≤ 2 ^ 48) :
    cropRect 1000 800 = (150, 120, 700, 560) ∧
    |(cropRect w h).1 - roundHalfAwayFromZero ((w : ℚ) * 0.15)| ≤ 1 ∧
    |(cropRect w h).2.1 - roundHalfAwayFromZero ((h : ℚ) * 0.15)| ≤ 1 ∧
    |(cropRect w h).2.2.1 - roundHalfAwayFromZero ((w : ℚ) * 0.7)| ≤ 1 ∧
    |(cropRect w h).2.2.2 - roundHalfAwayFromZero ((h : ℚ) * 0.7)| ≤ 1 := by
  refine ⟨cropRect_1000_800, ?_, ?_, ?_, ?_⟩
  · have hcomp := crop_component_close 0.15 (by norm_num) (by norm_num) w hw hwb
    have hcl := jsRound_close _ _ hcomp
    rwa [show (cropRect w h).1 = jsRound (fl (toD w * fl 0.15)) from rfl,
      rhafz_eq_jsRound ((w : ℚ) * 0.15) (by positivity)]
  · have hcomp := crop_component_close 0.15 (by norm_num) (by norm_num) h hh hhb
    have hcl := jsRound_close _ _ hcomp
    rwa [show (cropRect w h).2.1 = jsRound (fl (toD h * fl 0.15)) from rfl,
      rhafz_eq_jsRound ((h : ℚ) * 0.15) (by positivity)]
  · have hcomp := crop_component_close 0.7 (by norm_num) (by norm_num) w hw hwb
    have hcl := jsRound_close _ _ hcomp
    rwa [show (cropRect w h).2.2.1 = jsRound (fl (toD w * fl 0.7)) from rfl,
      rhafz_eq_jsRound ((w : ℚ) * 0.7) (by positivity)]
  · have hcomp := crop_component_close 0.7 (by norm_num) (by norm_num) h hh hhb
    have hcl := jsRound_close _ _ hcomp
    rwa [show (cropRect w h).2.2.2 = jsRound (fl (toD h * fl 0.7)) from rfl,
      rhafz_eq_jsRound ((h : ℚ) * 0.7) (by positivity)]

/-- C1 witness: the amended theorem applied at W = 1000, H = 800. -/
theorem crop_rect_double_semantics_witness :
    (0 < 1000 ∧ 0 < 800 ∧ ((1000 : ℕ) : ℚ) ≤ 2 ^ 48 ∧ ((800 : ℕ) : ℚ) ≤ 2 ^ 48) ∧
    cropRect 1000 800 = (150, 120, 700, 560) :=
  ⟨⟨by norm_num, by norm_num, by norm_num, by norm_num⟩,
   (crop_rect_double_semantics 1000 800 (by norm_num) (by norm_num) (by norm_num)
     (by norm_num)).1⟩

/-- C9: a request whose body lacks the image field gets a 400 response in
every engine state — the missing-input check precedes the readiness check, so
a missing image is never reported as 503. -/
theorem missing_image_always_400 (st : EngineState) (ctx : Ctx) :
    matchHandler none (extractorOf st) ctx = (.badRequest "No image", []) ∧
    (Response.badRequest "No image").status = 400 :=
  ⟨rfl, rfl⟩

/-- C9 witness: the theorem applied in the Failed state with a concrete
environment. -/
theorem missing_image_always_400_witness :
    matchHandler none (extractorOf .failed) ctx0 = (.badRequest "No image", []) :=
  (missing_image_always_400 .failed ctx0).1

/-- C2: while the engine is Unloaded or Loading, a `/match` request carrying a
(nonempty) image fails immediately with the 503 not-ready response, and no
pipeline stage — decode, color counting, normalization, embedding — runs. -/
theorem not_ready_503_no_work (st : EngineState)
    (hst : st = .unloaded ∨ st = .loading) (s : String) (hs : s ≠ "") (ctx : Ctx) :
    matchHandler (some s) (extractorOf st) ctx = (.notReady "Model loading", []) ∧
    (Response.notReady "Model loading").status = 503 := by
  have he : extractorOf st = none := by
    rcases hst with h | h <;> subst h <;> rfl
  exact ⟨by simp [matchHandler, he, hs], rfl⟩

/-- C2 witness: the theorem applied in the Loading state to a concrete
request. -/
theorem not_ready_503_no_work_witness :
    ((EngineState.loading = .unloaded ∨ EngineState.loading = .loading) ∧ "QUJD" ≠ "") ∧
    matchHandler (some "QUJD") (extractorOf .loading) ctx0 = (.notReady "Model loading", []) :=
  ⟨⟨Or.inr rfl, by decide⟩,
   (not_ready_503_no_work .loading (Or.inr rfl) "QUJD" (by decide) ctx0).1⟩

/-- C3 counterexample: after a failed model load, the handler's response to a
concrete request is identical to the Loading-state response — the same 503
"Model loading" — so no distinct unavailable error is produced. -/
theorem failed_engine_response_equals_loading_response :
    matchHandler (some "QUJD") (extractorOf (loadResult (.error "load failed"))) ctx0 =
      matchHandler (some "QUJD") (extractorOf .loading) ctx0 ∧
    (matchHandler (some "QUJD") (extractorOf (loadResult (.error "load failed"))) ctx0).1 =
      .notReady "Model loading" :=
  ⟨rfl, rfl⟩

/-- C3 amended: when model initialization raised an error the engine is
Failed, and a `/match` request then fails with the very same 503 not-ready
response as in the Loading state — the code does not surface a distinct
unavailable error. -/
theorem failed_engine_conflated_with_not_ready (err s : String) (hs : s ≠ "") (ctx : Ctx) :
    matchHandler (some s) (extractorOf (loadResult (.error err))) ctx =
      (.notReady "Model loading", []) ∧
    matchHandler (some s) (extractorOf (loadResult (.error err))) ctx =
      matchHandler (some s) (extractorOf .loading) ctx := by
  have he : extractorOf (loadResult (.error err)) = none := rfl
  have hl : extractorOf .loading = none := rfl
  constructor
  · simp [matchHandler, he, hs]
  · simp [matchHandler, he, hl, hs]

/-- C3 witness: the amended theorem applied to a concrete load error and
request. -/
theorem failed_engine_conflated_with_not_ready_witness :
    ("QUJD" ≠ "") ∧
    matchHandler (some "QUJD") (extractorOf (loadResult (.error "load boom"))) ctx0 =
      (.notReady "Model loading", []) :=
  ⟨by decide, (failed_engine_conflated_with_not_ready "load boom" "QUJD" (by decide) ctx0).1⟩

/-- C4 counterexample: a pooled model output of 767 components yields a
767-component vector — `slice(0, 768)` does not pad, so the assembled length
is not 768 when the native dimensionality falls short of 768. -/
theorem short_pooled_output_vector_not_768 :
    (assembleVector (List.replicate 767 (0 : ℚ))).length ≠ 768 := by
  unfold assembleVector
  rw [List.length_take, List.length_replicate]
  decide

/-- C4 amended: the assembled vector is the first `min(native, 768)`
components of the pooled output — a sublist of it, never padded — so it has
length exactly 768 precisely when the pooled output has at least 768
components, as the 768-dimensional DINOv2 pooled output does. -/
theorem vector_truncated_never_padded (pooled : List ℚ) :
    (assembleVector pooled).length = min 768 pooled.length ∧
    List.Sublist (assembleVector pooled) pooled :=
  ⟨List.length_take 768 pooled, List.take_sublist 768 pooled⟩

/-- C4 witness: the amended theorem applied to an 800-component pooled
output, where the assembled length is exactly 768. -/
theorem vector_truncated_never_padded_witness :
    (assembleVector (List.replicate 800 (0 : ℚ))).length = min 768 800 := by
  have h := (vector_truncated_never_padded (List.replicate 800 (0 : ℚ))).1
  rw [List.length_replicate] at h
  exact h

/-- C10 counterexample: the empty string — a malformed image payload — is
rejected with 400 by the JavaScript falsiness check `!image`, before any
base64 decoding happens. -/
theorem empty_image_string_rejected_400 :
    (matchHandler (some "") (extractorOf .ready) ctx0).1 = .badRequest "No image" ∧
    (Response.badRequest "No image").status = 400 :=
  ⟨rfl, rfl⟩

/-- C10 amended: every nonempty image string passes the input check — base64
decoding is total and never rejects, the response status is never 400, and
when the pipeline's image decode stage throws, the error surfaces as a 500
response.  Only the empty string is caught (as 400) by the falsiness check. -/
theorem malformed_image_never_400 (s : String) (hs : s ≠ "") (st : EngineState) (ctx : Ctx) :
    (matchHandler (some s) (extractorOf st) ctx).1.status ≠ 400 ∧
    (∀ e, extractorOf st = some () →
      ctx.resize50 (jsBase64Decode (stripDataUri s)) = .error e →
      (matchHandler (some s) (extractorOf st) ctx).1 = .serverError e ∧
      (Response.serverError e).status = 500) := by
  constructor
  · simp only [matchHandler]
    rw [if_neg hs]
    rcases hx : extractorOf st with _ | u
    · simp [Response.status]
    · rcases h1 : ctx.resize50 (jsBase64Decode (stripDataUri s)) with e | tiny
      · simp [h1, Response.status]
      · rcases h2 : ctx.metadata (jsBase64Decode (stripDataUri s)) with e | wh
        · simp [h1, h2, Response.status]
        · obtain ⟨w, h⟩ := wh
          rcases h3 : ctx.extract (jsBase64Decode (stripDataUri s)) (cropRect w h)
            with e | fr
          · simp [h1, h2, h3, Response.status]
          · rcases h4 : ctx.rpc (assembleVector (ctx.model fr)) (topColors tiny) 0.4 6
              with e | ms
            · simp [h1, h2, h3, h4, Response.status]
            · simp [h1, h2, h3, h4, Response.status]
  · intro e hx h1
    refine ⟨?_, rfl⟩
    simp only [matchHandler]
    rw [if_neg hs, hx]
    simp [h1]

/-- C10 witness: the amended theorem applied to a concrete garbage string in
an environment whose decode stage rejects. -/
theorem malformed_image_never_400_witness :
    ("!!!" ≠ "") ∧
    (matchHandler (some "!!!") (extractorOf .ready) ctxBad).1 =
      .serverError "Input buffer contains unsupported image format" :=
  ⟨by decide,
   ((malformed_image_never_400 "!!!" (by decide) .ready ctxBad).2
     "Input buffer contains unsupported image format" rfl rfl).1⟩

/-- `Nat.digitChar` is injective below 16. -/
theorem digitChar_injOn : ∀ a < 16, ∀ b < 16, Nat.digitChar a = Nat.digitChar b → a = b := by
  decide

/-- `hexOf` is injective on byte-valued pixels: distinct colors get distinct
hex keys, so color keys collide only for identical colors. -/
theorem hexOf_inj {p q : Pixel} (hp : p.bytes) (hq : q.bytes) (h : hexOf p = hexOf q) :
    p = q := by
  obtain ⟨pr, pg, pb⟩ := p
  obtain ⟨qr, qg, qb⟩ := q
  obtain ⟨hpr, hpg, hpb⟩ := hp
  obtain ⟨hqr, hqg, hqb⟩ := hq
  dsimp only at hpr hpg hpb hqr hqg hqb
  have hd : '#' :: hex6 (hexVal ⟨pr, pg, pb⟩) = '#' :: hex6 (hexVal ⟨qr, qg, qb⟩) :=
    congrArg String.data h
  simp only [hexVal, hex6, List.cons.injEq, and_true, true_and] at hd
  obtain ⟨h1, h2, h3, h4, h5, h6⟩ := hd
  have lt16 : ∀ x : ℕ, x % 16 < 16 := fun x => Nat.mod_lt _ (by norm_num)
  have e1 := digitChar_injOn _ (lt16 _) _ (lt16 _) h1
  have e2 := digitChar_injOn _ (lt16 _) _ (lt16 _) h2
  have e3 := digitChar_injOn _ (lt16 _) _ (lt16 _) h3
  have e4 := digitChar_injOn _ (lt16 _) _ (lt16 _) h4
  have e5 := digitChar_injOn _ (lt16 _) _ (lt16 _) h5
  have e6 := digitChar_injOn _ (lt16 _) _ (lt16 _) h6
  norm_num at e1 e2 e3 e4 e5 e6
  simp only [Pixel.mk.injEq]
  omega

/-- The key list of `bump`: an existing key leaves the keys unchanged, a
fresh key is appended at the end. -/
theorem bump_keys (acc : List (String × ℕ)) (key : String) :
    (acc.any (fun e => e.1 = key) = true ∧
      (bump acc key).map Prod.fst = acc.map Prod.fst) ∨
    (acc.any (fun e => e.1 = key) = false ∧
      (bump acc key).map Prod.fst = acc.map Prod.fst ++ [key]) := by
  unfold bump
  rcases ha : acc.any (fun e => e.1 = key) with _ | _
  · refine Or.inr ⟨rfl, ?_⟩
    rw [if_neg (by simp [ha])]
    simp
  · refine Or.inl ⟨rfl, ?_⟩
    rw [if_pos (by simp [ha])]
    rw [List.map_map]
    apply List.map_congr_left
    intro e _
    by_cases he : e.1 = key
    · simp [he]
    · simp [he]

/-- Every key produced by the counting fold is the hex key of some
non-excluded pixel of the input (or was already in the accumulator). -/
theorem countColors_keys_aux (ps : List Pixel) (acc : List (String × ℕ)) :
    ∀ s ∈ (ps.foldl
        (fun acc p => if excluded p then acc else bump acc (hexOf p)) acc).map Prod.fst,
      s ∈ acc.map Prod.fst ∨ ∃ p ∈ ps, ¬ excluded p ∧ s = hexOf p := by
  induction ps generalizing acc with
  | nil =>
    intro s hs
    exact Or.inl hs
  | cons p ps ih =>
    intro s hs
    simp only [List.foldl_cons] at hs
    by_cases hp : excluded p
    · rw [if_pos hp] at hs
      rcases ih acc s hs with h | ⟨p', hp', h1, h2⟩
      · exact Or.inl h
      · exact Or.inr ⟨p', List.mem_cons_of_mem _ hp', h1, h2⟩
    · rw [if_neg hp] at hs
      rcases ih (bump acc (hexOf p)) s hs with h | ⟨p', hp', h1, h2⟩
      · rcases bump_keys acc (hexOf p) with ⟨-, hb⟩ | ⟨-, hb⟩
        · rw [hb] at h
          exact Or.inl h
        · rw [hb] at h
          rcases List.mem_append.1 h with h | h
          · exact Or.inl h
          · simp only [List.mem_singleton] at h
            exact Or.inr ⟨p, List.mem_cons_self p ps, hp, h⟩
      · exact Or.inr ⟨p', List.mem_cons_of_mem _ hp', h1, h2⟩

/-- Every key of `countColors` is the hex key of some non-excluded input
pixel. -/
theorem countColors_keys (ps : List Pixel) :
    ∀ s ∈ (countColors ps).map Prod.fst, ∃ p ∈ ps, ¬ excluded p ∧ s = hexOf p := by
  intro s hs
  rcases countColors_keys_aux ps [] s hs with h | h
  · simp at h
  · exact h

/-- The counting fold keeps the keys distinct. -/
theorem countColors_keys_nodup_aux (ps : List Pixel) (acc : List (String × ℕ))
    (hacc : (acc.map Prod.fst).Nodup) :
    ((ps.foldl
        (fun acc p => if excluded p then acc else bump acc (hexOf p)) acc).map Prod.fst).Nodup := by
  induction ps generalizing acc with
  | nil => exact hacc
  | cons p ps ih =>
    simp only [List.foldl_cons]
    by_cases hp : excluded p
    · rw [if_pos hp]
      exact ih acc hacc
    · rw [if_neg hp]
      refine ih (bump acc (hexOf p)) ?_
      rcases bump_keys acc (hexOf p) with ⟨-, hb⟩ | ⟨hfresh, hb⟩
      · rw [hb]
        exact hacc
      · rw [hb]
        have hnotin : hexOf p ∉ acc.map Prod.fst := by
          intro hmem
          rcases List.mem_map.1 hmem with ⟨e, he, heq⟩
          have := List.any_eq_false.1 hfresh e he
          simp [heq] at this
        simp [List.nodup_append, hacc, hnotin]

/-- The keys of `countColors` are distinct. -/
theorem countColors_keys_nodup (ps : List Pixel) :
    ((countColors ps).map Prod.fst).Nodup :=
  countColors_keys_nodup_aux ps [] (by simp)

/-- When every pixel is excluded the counting table stays empty. -/
theorem countColors_all_excluded {ps : List Pixel} (h : ∀ p ∈ ps, excluded p) :
    countColors ps = [] := by
  unfold countColors
  induction ps with
  | nil => rfl
  | cons p ps ih =>
    simp only [List.foldl_cons]
    rw [if_pos (h p (List.mem_cons_self p ps))]
    exact ih fun q hq => h q (List.mem_cons_of_mem _ hq)

/-- The comparator `countLE` is transitive. -/
theorem countLE_trans : ∀ x y z : String × ℕ, countLE x y → countLE y z → countLE x z := by
  intro x y z hxy hyz
  simp only [countLE, decide_eq_true_eq] at hxy hyz ⊢
  omega

/-- The comparator `countLE` is total. -/
theorem countLE_total : ∀ x y : String × ℕ, countLE x y || countLE y x := by
  intro x y
  simp only [countLE]
  rcases Nat.le_total y.2 x.2 with h | h <;> simp [h]

/-- C5: a downsampled pixel whose channels are all simultaneously above 240,
or all simultaneously below 15, is excluded from counting, and its color never
appears in the returned profile. -/
theorem excluded_color_never_in_profile (ps : List Pixel) (c : Pixel)
    (hps : ∀ p ∈ ps, p.bytes) (hc : c.bytes) (hexc : excluded c) :
    hexOf c ∉ topColors ps := by
  intro hmem
  have h1 : hexOf c ∈ (sortedCounts ps).map Prod.fst := by
    unfold topColors at hmem
    exact List.mem_of_mem_take hmem
  have h2 : hexOf c ∈ (countColors ps).map Prod.fst := by
    rcases List.mem_map.1 h1 with ⟨e, he, heq⟩
    unfold sortedCounts at he
    exact heq ▸ List.mem_map_of_mem Prod.fst (List.mem_mergeSort.1 he)
  rcases countColors_keys ps _ h2 with ⟨p, hp, hnex, hpe⟩
  have : p = c := hexOf_inj (hps p hp) hc hpe.symm
  exact hnex (this ▸ hexc)

/-- C5 witness: the theorem applied to a one-pixel input and the near-white
color (255, 255, 255). -/
theorem excluded_color_never_in_profile_witness :
    ((∀ p ∈ [Pixel.mk 100 150 200], p.bytes) ∧ (Pixel.mk 255 255 255).bytes ∧
      excluded (Pixel.mk 255 255 255)) ∧
    hexOf (Pixel.mk 255 255 255) ∉ topColors [Pixel.mk 100 150 200] :=
  ⟨⟨by decide, by decide, by decide⟩,
   excluded_color_never_in_profile [Pixel.mk 100 150 200] (Pixel.mk 255 255 255)
     (by decide) (by decide) (by decide)⟩

/-- C6: the profile is the first at-most-3 keys of the stably sorted count
entries: it has length ≤ 3, its keys are distinct, the sorted entries are in
descending frequency order, and entries with equal counts keep their
first-seen insertion order; the profile is a pure function of the pixels. -/
theorem profile_top3_sorted_stable (ps : List Pixel) :
    (topColors ps).length ≤ 3 ∧
    (topColors ps).Nodup ∧
    topColors ps = ((sortedCounts ps).map Prod.fst).take 3 ∧
    (sortedCounts ps).Pairwise (fun x y => y.2 ≤ x.2) ∧
    (∀ x y : String × ℕ, x.2 = y.2 →
      List.Sublist [x, y] (countColors ps) → List.Sublist [x, y] (sortedCounts ps)) := by
  refine ⟨List.length_take_le 3 _, ?_, rfl, ?_, ?_⟩
  · have hperm : List.Perm ((sortedCounts ps).map Prod.fst) ((countColors ps).map Prod.fst) :=
      (List.mergeSort_perm (countColors ps) countLE).map Prod.fst
    have hnd : ((sortedCounts ps).map Prod.fst).Nodup :=
      (hperm.nodup_iff).2 (countColors_keys_nodup ps)
    exact hnd.sublist (List.take_sublist 3 _)
  · have hs := List.sorted_mergeSort countLE_trans countLE_total (countColors ps)
    exact hs.imp fun h => by
      simpa only [countLE, decide_eq_true_eq] using h
  · intro x y hxy hsub
    exact List.pair_sublist_mergeSort countLE_trans countLE_total
      (by simp [countLE, hxy]) hsub

/-- C6 witness: the theorem applied to a concrete two-color pixel list. -/
theorem profile_top3_sorted_stable_witness :
    (topColors [Pixel.mk 10 20 30, Pixel.mk 40 50 60]).length ≤ 3 :=
  (profile_top3_sorted_stable [Pixel.mk 10 20 30, Pixel.mk 40 50 60]).1

/-- C7: when every downsampled pixel is excluded (an all-white image), the
profile is empty, and the request still succeeds: with the engine ready and
every collaborator resolving, the response is 200 with `colors_detected: []`
— emptiness is not an error. -/
theorem all_excluded_empty_profile_success (s : String) (hs : s ≠ "") (ctx : Ctx)
    (ps : List Pixel) (hall : ∀ p ∈ ps, excluded p)
    (h50 : ctx.resize50 (jsBase64Decode (stripDataUri s)) = .ok ps)
    (w h : ℕ) (hmeta : ctx.metadata (jsBase64Decode (stripDataUri s)) = .ok (w, h))
    (frame : List Pixel × ℕ × ℕ)
    (hext : ctx.extract (jsBase64Decode (stripDataUri s)) (cropRect w h) = .ok frame)
    (ms : List ℕ)
    (hrpc : ctx.rpc (assembleVector (ctx.model frame)) (topColors ps) 0.4 6 = .ok ms) :
    topColors ps = [] ∧
    matchHandler (some s) (extractorOf .ready) ctx =
      (.ok ms [], [.resizeTiny, .countStep, .metaStep, .cropResize, .vectorize, .rpcCall]) ∧
    (Response.ok ms []).status = 200 := by
  have hempty : topColors ps = [] := by
    unfold topColors sortedCounts
    rw [countColors_all_excluded hall]
    simp
  refine ⟨hempty, ?_, rfl⟩
  simp only [matchHandler]
  rw [if_neg hs]
  show (match extractorOf .ready with
    | none => (Response.notReady "Model loading", [])
    | some _ => _) = _
  rw [show extractorOf .ready = some () from rfl]
  simp only [h50, hmeta, hext, hrpc]
  rw [hempty]

/-- C7 witness: the theorem applied to a concrete all-near-white downsample in
the environment `ctx7`. -/
theorem all_excluded_empty_profile_success_witness :
    (∀ p ∈ [Pixel.mk 250 250 250], excluded p) ∧
    matchHandler (some "QUJD") (extractorOf .ready) ctx7 =
      (.ok [] [], [.resizeTiny, .countStep, .metaStep, .cropResize, .vectorize, .rpcCall]) :=
  ⟨by decide,
   (all_excluded_empty_profile_success "QUJD" (by decide) ctx7
     [Pixel.mk 250 250 250] (by decide) rfl 10 10 rfl ([], 7, 7) rfl [] rfl).2.1⟩

/-- `dropLit` drops a literal leading run. -/
theorem dropLit_self_append (p l : List Char) : dropLit p (p ++ l) = some l := by
  induction p with
  | nil => rfl
  | cons c cs ih => simp [dropLit, ih]

/-- When `dropLit` succeeds, the input really did start with the literal. -/
theorem dropLit_eq_some (p l r : List Char) (h : dropLit p l = some r) : l = p ++ r := by
  induction p generalizing l with
  | nil =>
    simp only [dropLit, Option.some.injEq] at h
    simpa using h
  | cons c cs ih =>
    match l with
    | [] => exact absurd h (by simp [dropLit])
    | d :: ds =>
      simp only [dropLit] at h
      by_cases hcd : c = d
      · rw [if_pos hcd] at h
        rw [List.cons_append, ← hcd, ih ds h]
      · rw [if_neg hcd] at h
        exact absurd h (by simp)

/-- The semicolon is not a word character. -/
theorem semicolon_not_word : isWordChar ';' = false := by decide

/-- `takeWhile`/`dropWhile` split a word run followed by a semicolon exactly
at the semicolon. -/
theorem word_run_split (t v : List Char) (htw : ∀ c ∈ t, isWordChar c = true) :
    (t ++ ';' :: v).takeWhile isWordChar = t ∧
    (t ++ ';' :: v).dropWhile isWordChar = ';' :: v := by
  induction t with
  | nil =>
    constructor
    · simp [List.takeWhile_cons, semicolon_not_word]
    · simp [List.dropWhile_cons, semicolon_not_word]
  | cons c cs ih =>
    have hc : isWordChar c = true := htw c (List.mem_cons_self c cs)
    have hrest := ih fun d hd => htw d (List.mem_cons_of_mem _ hd)
    constructor
    · simp [List.takeWhile_cons, hc, hrest.1]
    · simp [List.dropWhile_cons, hc, hrest.2]

/-- Stripping the header from a headed payload leaves exactly the payload:
the greedy word run is the type word, stopped by the `;` of `;base64,`. -/
theorem stripHeader_strips (t s : List Char) (htne : t ≠ [])
    (htw : ∀ c ∈ t, isWordChar c = true) :
    stripHeader ("data:image/".data ++ (t ++ (";base64,".data ++ s))) = s := by
  unfold stripHeader
  have hsplit : t ++ (";base64,".data ++ s) = t ++ ';' :: ("base64,".data ++ s) := rfl
  rw [hsplit]
  simp only [dropLit_self_append]
  rw [(word_run_split t _ htw).1, (word_run_split t _ htw).2]
  rcases t with _ | ⟨c, cs⟩
  · exact absurd rfl htne
  · dsimp only
    simp only [show (';' : Char) :: ("base64,".data ++ s) = ";base64,".data ++ s from rfl,
      dropLit_self_append]

/-- A string whose characters are all in the base64 alphabet (or `=`) cannot
carry a data-URI header, because `:` is outside that alphabet; stripping
leaves it unchanged. -/
theorem stripHeader_no_header (s : List Char)
    (hsa : ∀ c ∈ s, base64Val c ≠ none ∨ c = '=') :
    stripHeader s = s := by
  unfold stripHeader
  rcases hdl : dropLit "data:image/".data s with _ | rest
  · rfl
  · exfalso
    have hss : s = "data:image/".data ++ rest := dropLit_eq_some _ _ _ hdl
    have hmem : (':' : Char) ∈ s := by
      rw [hss]
      exact List.mem_append_left _ (by decide)
    rcases hsa _ hmem with h | h
    · exact h (by decide)
    · exact absurd h (by decide)

/-- C8: a request whose image field is a base64 payload behind a data-URI
header `data:image/<t>;base64,` is processed exactly like the request carrying
the payload alone, in every engine state and environment — the header is
stripped before decoding and has no other effect on the result. -/
theorem data_uri_header_immaterial (s t : String) (hs : s ≠ "")
    (hsa : ∀ c ∈ s.data, base64Val c ≠ none ∨ c = '=')
    (ht : t.data ≠ []) (htw : ∀ c ∈ t.data, isWordChar c = true)
    (ex : Option Unit) (ctx : Ctx) :
    matchHandler (some ("data:image/" ++ t ++ ";base64," ++ s)) ex ctx =
      matchHandler (some s) ex ctx := by
  have hdata : ("data:image/" ++ t ++ ";base64," ++ s).data =
      "data:image/".data ++ (t.data ++ (";base64,".data ++ s.data)) := by
    simp [String.data_append, List.append_assoc]
  have hstrip1 : stripDataUri ("data:image/" ++ t ++ ";base64," ++ s) = s := by
    unfold stripDataUri
    rw [hdata, stripHeader_strips t.data s.data ht htw]
  have hstrip2 : stripDataUri s = s := by
    unfold stripDataUri
    rw [stripHeader_no_header s.data hsa]
  have hne : ("data:image/" ++ t ++ ";base64," ++ s) ≠ "" := by
    intro hcon
    have := congrArg String.data hcon
    rw [hdata] at this
    simp at this
  simp only [matchHandler]
  rw [if_neg hne, if_neg hs, hstrip1, hstrip2]

/-- C8 witness: the theorem applied to the payload "QUJD" and the type word
"png", with the engine ready. -/
theorem data_uri_header_immaterial_witness :
    (("QUJD" : String) ≠ "" ∧ (∀ c ∈ ("QUJD" : String).data, base64Val c ≠ none ∨ c = '=') ∧
      ("png" : String).data ≠ [] ∧ (∀ c ∈ ("png" : String).data, isWordChar c = true)) ∧
    matchHandler (some ("data:image/" ++ "png" ++ ";base64," ++ "QUJD"))
        (extractorOf .ready) ctx0 =
      matchHandler (some "QUJD") (extractorOf .ready) ctx0 :=
  ⟨⟨by decide, by decide, by decide, by decide⟩,
   data_uri_header_immaterial "QUJD" "png" (by decide) (by decide) (by decide) (by decide)
     (extractorOf .ready) ctx0⟩

end DinoVectorizer
